import Mathlib

set_option maxRecDepth 16384

/-!
Shallow embedding of the core content pipeline of
`Social_Media_Content_Generator.py` and proofs about it.

Python strings are modelled as `String` / `List Char` (sequences of
code points, matching Python `len` and slicing).  Dictionary lookups
with `.get` defaults become conditional lookups, `random.choice` /
`random.sample` results are passed in as explicit parameters, and the
unbounded `while` loop of the hashtag suggester is modelled with an
explicit iteration budget (`none` meaning the loop is still running).
All functions are total and executable.
-/

namespace SMCG

/-- Python `str.split(sep, 1)` at the first occurrence of `sep`:
`some (pre, post)` when `sep` occurs in the list, `none` otherwise. -/
def splitOnce (sep : List Char) : List Char → Option (List Char × List Char)
  | [] => none
  | c :: cs =>
    if sep.isPrefixOf (c :: cs) then some ([], (c :: cs).drop sep.length)
    else
      match splitOnce sep cs with
      | some (pre, post) => some (c :: pre, post)
      | none => none

/-- Left-to-right non-overlapping replacement of `pat` by `rep`, with a
bound `fuel` on the number of replacements (used with enough fuel to
replace every occurrence). -/
def replaceFuel (pat rep : List Char) : Nat → List Char → List Char
  | 0, l => l
  | fuel + 1, l =>
    match splitOnce pat l with
    | some (pre, post) => pre ++ rep ++ replaceFuel pat rep fuel post
    | none => l

/-- Python `str.replace(pat, rep)` (and `str.format` substitution of a
placeholder): replace every occurrence, left to right, non-overlapping.
`s.data.length` replacements always suffice for a non-empty `pat`. -/
def pyReplace (pat rep s : String) : String :=
  ⟨replaceFuel pat.data rep.data s.data.length s.data⟩

/-- Python `str.replace` with single-character arguments is exactly a
character-wise substitution. -/
def pyReplaceChar (a b : Char) (s : String) : String :=
  ⟨s.data.map fun c => if c = a then b else c⟩

/-- Python `\s` for the ASCII range: space, tab, newline, carriage
return, vertical tab, form feed. -/
def pySpace (c : Char) : Bool :=
  c = ' ' || c = '\t' || c = '\n' || c = '\r' || c = '\x0b' || c = '\x0c'

/-- Python `str.strip()`: drop whitespace at both ends. -/
def pyStrip (l : List Char) : List Char :=
  ((l.dropWhile pySpace).reverse.dropWhile pySpace).reverse

/-- `str.strip()` on a `String`. -/
def pyStripStr (s : String) : String := ⟨pyStrip s.data⟩

/-! ## `ContentGenerator` -/

/-- `ContentGenerator.platform_limits` together with the
`.get(platform, 2000)` default used in `generate_text_post`. -/
def platformLimit (platform : String) : Nat :=
  if platform = "Twitter" then 280
  else if platform = "Facebook" then 2000
  else if platform = "Instagram" then 2200
  else if platform = "LinkedIn" then 3000
  else 2000

/-- `content_templates["promotional"]` (non-ASCII characters appear in
the source file exactly as escaped here). -/
def promotional_templates : List String :=
  ["üöÄ Exciting news! \x7btopic\x7d is here to revolutionize your experience. Don\x27t miss out on this amazing opportunity!",
   "‚ú® Discover the power of \x7btopic\x7d! Join thousands of satisfied customers who have already transformed their lives.",
   "üéØ Ready to take your \x7btopic\x7d to the next level? Our solution is exactly what you\x27ve been looking for!"]

/-- `content_templates["informative"]`. -/
def informative_templates : List String :=
  ["Did you know that \x7btopic\x7d can significantly impact your daily routine? Here are some key insights to consider.",
   "Understanding \x7btopic\x7d is crucial in today\x27s world. Let\x27s explore the facts and benefits together.",
   "üìä Research shows that \x7btopic\x7d plays a vital role in modern business. Here\x27s what you need to know."]

/-- `content_templates["question"]`. -/
def question_templates : List String :=
  ["What\x27s your experience with \x7btopic\x7d? We\x27d love to hear your thoughts and stories!",
   "How has \x7btopic\x7d changed your perspective? Share your insights in the comments below!",
   "ü§î What would you do if \x7btopic\x7d wasn\x27t available? Let\x27s discuss the alternatives!"]

/-- `self.content_templates.get(content_type, self.content_templates["informative"])`. -/
def lookupPool (content_type : String) : List String :=
  if content_type = "promotional" then promotional_templates
  else if content_type = "informative" then informative_templates
  else if content_type = "question" then question_templates
  else informative_templates

/-- The text `ContentGenerator.generate_text_post` assembles before the
platform-limit check: template selection (`random.choice` modelled by
the index `choice`), `\x7btopic\x7d` substitution, tone modification,
optional call to action. -/
def assembleText (topic content_type tone cta : String) (choice : Nat) : String :=
  let templates := lookupPool content_type
  let base := templates.getD (choice % templates.length) ""
  let t1 := pyReplace "\x7btopic\x7d" topic base
  let t2 :=
    if tone = "humorous" then t1 ++ " üòÑ"
    else if tone = "professional" then pyReplaceChar '!' '.' t1
    else t1
  if cta ≠ "" then t2 ++ " " ++ cta else t2

/-- `ContentGenerator.generate_text_post`: assemble the text, then
enforce the platform limit by truncating to `limit - 3` characters and
appending `"..."` when the text is longer than the limit. -/
def generate_text_post (topic content_type platform tone cta : String) (choice : Nat) : String :=
  let generated := assembleText topic content_type tone cta choice
  let limit := platformLimit platform
  if limit < generated.length then ⟨generated.data.take (limit - 3) ++ "...".data⟩
  else generated

/-! ## `HashtagSuggester` -/

/-- `HashtagSuggester.hashtag_database`. -/
def hashtag_database : List (String × List String) :=
  [("business", ["#business", "#entrepreneur", "#startup", "#success", "#growth"]),
   ("technology", ["#tech", "#innovation", "#digital", "#AI", "#future"]),
   ("marketing", ["#marketing", "#socialmedia", "#branding", "#content", "#strategy"]),
   ("health", ["#health", "#wellness", "#fitness", "#lifestyle", "#selfcare"]),
   ("education", ["#education", "#learning", "#knowledge", "#skills", "#development"])]

/-- `HashtagSuggester.trending_hashtags`. -/
def trending_hashtags : List String :=
  ["#trending", "#viral", "#popular", "#2025", "#new"]

/-- The `generic_hashtags` list rebuilt on each iteration of the
fallback loop in `suggest_hashtags`. -/
def generic_hashtags : List String :=
  ["#content", "#social", "#post", "#share", "#engage"]

/-- `set.update`: add the elements of `xs` one by one to the
deduplicating collection `l`, modelled as an insertion-ordered
duplicate-free list (the Python `set` is unordered; only membership and
size are observable downstream of it). -/
def addNew (l : List String) : List String → List String
  | [] => l
  | x :: xs => if l.contains x then addNew l xs else addNew (l ++ [x]) xs

/-- The `suggested_hashtags` set after the category scan (up to 3 tags
per category whose name occurs in the lowercased text) and the trending
sample; `sample` stands for `random.sample(trending_hashtags, 2)`. -/
def initialHashtags (text : String) (sample : List String) : List String :=
  let lower := text.data.map Char.toLower
  let fromDb := hashtag_database.foldl
    (fun acc p => if p.1.data <:+: lower then addNew acc (p.2.take 3) else acc) []
  addNew fromDb sample

/-- The body of the fallback loop: `for hashtag in generic_hashtags`,
appending hashtags not yet present and breaking as soon as `count`
items are accumulated. -/
def padPass (count : Nat) : List String → List String → List String
  | l, [] => l
  | l, g :: gs =>
    if l.contains g then padPass count l gs
    else
      let l' := l ++ [g]
      if count ≤ l'.length then l' else padPass count l' gs

/-- The `while len(hashtag_list) < count` loop of `suggest_hashtags`.
The Python loop is unbounded; `fuel` is an explicit iteration budget and
`none` means the loop is still running after `fuel` iterations, so
`∀ fuel, padLoop count fuel l = none` expresses non-termination. -/
def padLoop (count : Nat) : Nat → List String → Option (List String)
  | 0, _ => none
  | fuel + 1, l =>
    if l.length < count then padLoop count fuel (padPass count l generic_hashtags)
    else some l

/-- `HashtagSuggester.suggest_hashtags`: build the initial deduplicated
list, truncate to `count`, run the fallback loop, truncate again. -/
def suggest_hashtags (text : String) (count : Nat) (sample : List String)
    (fuel : Nat) : Option (List String) :=
  let start := (initialHashtags text sample).take count
  (padLoop count fuel start).map fun l => l.take count

/-- The number of distinct hashtags reachable for `text`: category
matches, the trending sample, and the generic fallback pool. -/
def totalReachable (text : String) (sample : List String) : Nat :=
  (addNew (initialHashtags text sample) generic_hashtags).length

/-! ## `ImageIdeaGenerator` -/

/-- The stopword set of `ImageIdeaGenerator._extract_keywords`. -/
def common_words : List String :=
  ["the", "a", "an", "and", "or", "but", "in", "on", "at", "to", "for", "of", "with", "by"]

/-- Python `\w` word character, ASCII range. -/
def isWordChar (c : Char) : Bool := c.isAlphanum || c = '_'

/-- `re.findall(r'\b\w+\b', text)`: the maximal runs of word
characters; `acc` carries the current run, reversed. -/
def wordRuns (acc : List Char) : List Char → List (List Char)
  | [] => if acc.isEmpty then [] else [acc.reverse]
  | c :: cs =>
    if isWordChar c then wordRuns (c :: acc) cs
    else if acc.isEmpty then wordRuns [] cs
    else acc.reverse :: wordRuns [] cs

/-- `ImageIdeaGenerator._extract_keywords`: tokenize the lowercased
text, keep tokens longer than 3 characters that are not stopwords, and
return the first 5. -/
def _extract_keywords (text : String) : List String :=
  let words := wordRuns [] (text.data.map Char.toLower)
  let keywords := words.filter fun w =>
    decide (3 < w.length) && !(common_words.contains (String.mk w))
  (keywords.take 5).map String.mk

/-- `ImageIdeaGenerator.image_styles`. -/
def image_styles : List String :=
  ["professional photography", "minimalist design", "vibrant colors",
   "modern illustration", "infographic style"]

/-- `ImageIdeaGenerator.image_elements`. -/
def image_elements : List String :=
  ["people working together", "technology devices", "abstract concepts",
   "nature elements", "geometric shapes"]

/-- Python `str.title()` for ASCII text: a letter that follows a
non-letter is uppercased, other letters are lowercased; `prevAlpha`
tracks whether the previous character was a letter. -/
def pyTitleAux : Bool → List Char → List Char
  | _, [] => []
  | prevAlpha, c :: cs =>
    (if c.isAlpha then (if prevAlpha then c.toLower else c.toUpper) else c)
      :: pyTitleAux c.isAlpha cs

/-- `str.title()` on a `String`. -/
def pyTitle (s : String) : String := ⟨pyTitleAux false s.data⟩

/-- One idea string built inside `ImageIdeaGenerator.generate_ideas`. -/
def mkIdea (keywords : List String) (style element : String) : String :=
  if keywords.isEmpty then pyTitle style ++ " featuring " ++ element
  else pyTitle style ++ " featuring " ++ element ++ " related to "
    ++ String.intercalate ", " (keywords.take 2)

/-- The inner `for element in self.image_elements[:2]` loop of
`generate_ideas`, with its `break` once 5 ideas are accumulated. -/
def ideasInner (keywords : List String) (style : String) :
    List String → List String → List String
  | ideas, [] => ideas
  | ideas, e :: es =>
    let ideas' := ideas ++ [mkIdea keywords style e]
    if 5 ≤ ideas'.length then ideas' else ideasInner keywords style ideas' es

/-- The outer `for style in self.image_styles[:3]` loop of
`generate_ideas`, with its `break` once 5 ideas are accumulated. -/
def ideasOuter (keywords : List String) : List String → List String → List String
  | ideas, [] => ideas
  | ideas, s :: ss =>
    let ideas' := ideasInner keywords s ideas (image_elements.take 2)
    if 5 ≤ ideas'.length then ideas' else ideasOuter keywords ideas' ss

/-- `ImageIdeaGenerator.generate_ideas`. -/
def generate_ideas (text_post : String) : List String :=
  ideasOuter (_extract_keywords text_post) [] (image_styles.take 3)

/-! ## `parse_complex_result` -/

/-- The `\n?` part of the marker pattern: consume an optional leading
newline. -/
def markerTail (l : List Char) : List Char :=
  match l with
  | c :: t => if c = '\n' then t else l
  | [] => l

/-- One attempt of the `re.sub(r"\n?\d+\.\s*", "\n", ...)` pattern at
the head of the list: an optional newline, one or more digits, a dot,
then greedily any whitespace; returns the rest after the match. -/
def tryMarker (l : List Char) : Option (List Char) :=
  if ((markerTail l).takeWhile Char.isDigit).isEmpty then none
  else
    match (markerTail l).dropWhile Char.isDigit with
    | c :: r2 => if c = '.' then some (r2.dropWhile pySpace) else none
    | [] => none

/-- The left-to-right `re.sub` scan, replacing every (non-overlapping)
marker match by a newline; `fuel ≥ l.length` makes the scan complete. -/
def normGo : Nat → List Char → List Char
  | 0, l => l
  | _ + 1, [] => []
  | fuel + 1, c :: cs =>
    match tryMarker (c :: cs) with
    | some rest => '\n' :: normGo fuel rest
    | none => c :: normGo fuel cs

/-- `re.sub(r"\n?\d+\.\s*", "\n", text)`: collapse leading numbered
list markers into newlines. -/
def normalizeMarkers (l : List Char) : List Char := normGo l.length l

/-- `re.search(rf"{key}[:\s]*([^\n]*)", text, re.IGNORECASE)`: find the
leftmost case-insensitive occurrence of `lab`, skip the run of `:` and
whitespace after it, and capture the remainder of the line. `none` when
the label does not occur (for the non-empty labels used here). -/
def searchLabel (lab : List Char) : List Char → Option (List Char)
  | [] => none
  | c :: cs =>
    if (lab.map Char.toLower).isPrefixOf ((c :: cs).map Char.toLower) then
      some ((((c :: cs).drop lab.length).dropWhile
          fun ch => ch = ':' || pySpace ch).takeWhile fun ch => ch != '\n')
    else searchLabel lab cs

/-- The result dictionary of `parse_complex_result`, with its four
fixed keys. -/
structure ComplexResult where
  caption : String
  postIdea : String
  hashtags : String
  visualSuggestion : String

/-- The per-label extraction of `parse_complex_result`: the stripped
captured group when the label is found, the empty string otherwise. -/
def extractField (lab : String) (t : List Char) : String :=
  match searchLabel lab.data t with
  | some v => ⟨pyStrip v⟩
  | none => ""

/-- `parse_complex_result`: normalize the numbered markers, then search
each of the four labels independently over the whole normalized text.
Total by construction: a missing label yields `""`, never an error. -/
def parse_complex_result (text : String) : ComplexResult :=
  let t := normalizeMarkers text.data
  { caption := extractField "Caption" t
    postIdea := extractField "Post Idea" t
    hashtags := extractField "Hashtags" t
    visualSuggestion := extractField "Visual/Design Suggestion" t }

/-! ## `split_title_desc` -/

/-- The separator list of `split_title_desc`, with the characters
exactly as they appear in the source file: the third and fourth entries
are the three-character sequences U+201A U+00C4 U+00EC and
U+201A U+00C4 U+00EE (a mojibake rendering of an en/em dash), not a
single dash character. -/
def title_separators : List String :=
  [": ", " - ", " ‚Äì ", " ‚Äî ", ". "]

/-- The separator list as the specification (§4.4) names it: colon,
hyphen, en dash (U+2013), em dash (U+2014), dot.  Modelled from the
spec, for comparison with `title_separators`. -/
def spec_separators : List String :=
  [": ", " - ", " – ", " — ", ". "]

/-- `split_title_desc`, generalized over the separator list: try each
separator in order; on the first one that occurs, split at its first
occurrence and strip both parts; if none occurs, the whole stripped
line is the title and there is no description. -/
def splitFirstSep (line : List Char) : List String → String × Option String
  | [] => (⟨pyStrip line⟩, none)
  | sep :: rest =>
    match splitOnce sep.data line with
    | some (pre, post) => (⟨pyStrip pre⟩, some ⟨pyStrip post⟩)
    | none => splitFirstSep line rest

/-- `split_title_desc` from the Streamlit page code. -/
def split_title_desc (line : String) : String × Option String :=
  splitFirstSep line.data title_separators

/-! ## Basic facts -/

theorem string_length_mk (l : List Char) : (String.mk l).length = l.length := rfl

theorem string_length_data (s : String) : s.length = s.data.length := rfl

theorem platformLimit_ge (platform : String) : 280 ≤ platformLimit platform := by
  unfold platformLimit
  split_ifs <;> omega

/-! ## Claim theorems -/

/-- C1: for every topic, content type, tone, cta, template choice, and
platform (an unknown platform defaulting to limit 2000), the post
returned by `generate_text_post` is at most `platformLimit platform`
characters long; and whenever the assembled text exceeds the limit, the
result is its `limit - 3`-character truncation with `"..."` appended,
whose length is exactly the limit. -/
theorem generate_text_post_length
    (topic content_type platform tone cta : String) (choice : Nat) :
    (generate_text_post topic content_type platform tone cta choice).length
        ≤ platformLimit platform
    ∧ (platformLimit platform < (assembleText topic content_type tone cta choice).length →
        generate_text_post topic content_type platform tone cta choice
          = ⟨(assembleText topic content_type tone cta choice).data.take
                (platformLimit platform - 3) ++ "...".data⟩
        ∧ (generate_text_post topic content_type platform tone cta choice).length
            = platformLimit platform) := by
  have hlim := platformLimit_ge platform
  have hdata := string_length_data (assembleText topic content_type tone cta choice)
  constructor
  · unfold generate_text_post
    by_cases h : platformLimit platform
        < (assembleText topic content_type tone cta choice).length
    · rw [if_pos h]
      rw [string_length_mk, List.length_append, List.length_take]
      have h3 : ("...".data).length = 3 := rfl
      omega
    · rw [if_neg h]
      omega
  · intro h
    unfold generate_text_post
    rw [if_pos h]
    refine ⟨rfl, ?_⟩
    rw [string_length_mk, List.length_append, List.length_take]
    have h3 : ("...".data).length = 3 := rfl
    omega

/-- C1 witness: a 300-character topic overflows the Twitter limit and
the generated post has length exactly 280. -/
theorem generate_text_post_length_witness :
    platformLimit "Twitter"
        < (assembleText (String.mk (List.replicate 300 'a')) "promotional" "casual" "" 0).length
    ∧ (generate_text_post (String.mk (List.replicate 300 'a')) "promotional" "Twitter"
          "casual" "" 0).length = platformLimit "Twitter" := by
  have h := generate_text_post_length (String.mk (List.replicate 300 'a'))
    "promotional" "Twitter" "casual" "" 0
  have hx : platformLimit "Twitter"
      < (assembleText (String.mk (List.replicate 300 'a')) "promotional" "casual" "" 0).length := by
    decide
  exact ⟨hx, (h.2 hx).2⟩

/-- C4: the professional-tone transformation, replacing every `!` with
`.`, is idempotent: a second application changes nothing. -/
theorem professional_replace_idempotent (s : String) :
    pyReplaceChar '!' '.' (pyReplaceChar '!' '.' s) = pyReplaceChar '!' '.' s := by
  unfold pyReplaceChar
  rw [List.map_map]
  refine congrArg String.mk (List.map_congr_left fun c _ => ?_)
  by_cases h : c = '!' <;> simp [h]

/-- C9: an unrecognized content type falls back to the informative pool
(and the generated post is the one generated with `"informative"`, with
no error: the function is total); each known content type selects its
own pool. -/
theorem content_type_fallback (content_type : String) :
    (content_type ≠ "promotional" → content_type ≠ "informative" → content_type ≠ "question" →
      lookupPool content_type = informative_templates
      ∧ ∀ topic platform tone cta choice,
          generate_text_post topic content_type platform tone cta choice
            = generate_text_post topic "informative" platform tone cta choice)
    ∧ lookupPool "promotional" = promotional_templates
    ∧ lookupPool "informative" = informative_templates
    ∧ lookupPool "question" = question_templates := by
  refine ⟨fun h1 h2 h3 => ?_, rfl, rfl, rfl⟩
  have hp : lookupPool content_type = informative_templates := by
    unfold lookupPool
    rw [if_neg h1, if_neg h2, if_neg h3]
  refine ⟨hp, fun topic platform tone cta choice => ?_⟩
  have hq : lookupPool "informative" = informative_templates := rfl
  unfold generate_text_post assembleText
  rw [hp, hq]

/-- C9 witness: the unknown content type `"banana"` behaves exactly
like `"informative"`. -/
theorem content_type_fallback_witness :
    lookupPool "banana" = informative_templates
    ∧ generate_text_post "x" "banana" "Twitter" "casual" "" 0
        = generate_text_post "x" "informative" "Twitter" "casual" "" 0 := by
  have h := (content_type_fallback "banana").1 (by decide) (by decide) (by decide)
  exact ⟨h.1, h.2 "x" "Twitter" "casual" "" 0⟩

/-- C6: parsing the given numbered-list text yields the three labeled
fields and an empty visual suggestion, the numbered markers having been
collapsed into newlines before label matching. -/
theorem parse_complex_result_example :
    (parse_complex_result
        "1. Caption: Great day\n2. Post Idea: Go outside\n3. Hashtags: #sun, #fun").caption
        = "Great day"
    ∧ (parse_complex_result
        "1. Caption: Great day\n2. Post Idea: Go outside\n3. Hashtags: #sun, #fun").postIdea
        = "Go outside"
    ∧ (parse_complex_result
        "1. Caption: Great day\n2. Post Idea: Go outside\n3. Hashtags: #sun, #fun").hashtags
        = "#sun, #fun"
    ∧ (parse_complex_result
        "1. Caption: Great day\n2. Post Idea: Go outside\n3. Hashtags: #sun, #fun").visualSuggestion
        = "" := by
  refine ⟨?_, ?_, ?_, ?_⟩ <;> decide

/-- C10: `generate_ideas` always returns exactly 5 ideas, whether or
not keywords were extracted: the 3-style by 2-element nested loop
produces its fifth idea on the first element of the third style and
breaks there. -/
theorem generate_ideas_length (text_post : String) :
    (generate_ideas text_post).length = 5 := by
  unfold generate_ideas
  simp [ideasOuter, ideasInner, image_styles, image_elements]

/-- If one pass over the generic pool starts below `count` but the pool
together with the current list holds at least `count` distinct
hashtags, the pass stops at exactly `count` items. -/
theorem padPass_reaches (count : Nat) (gs : List String) :
    ∀ l : List String, l.length < count → count ≤ (addNew l gs).length →
      (padPass count l gs).length = count := by
  induction gs with
  | nil =>
    intro l h1 h2
    exact absurd h2 (by simp only [addNew]; omega)
  | cons g gs ih =>
    intro l h1 h2
    rw [show addNew l (g :: gs)
        = if l.contains g then addNew l gs else addNew (l ++ [g]) gs from rfl] at h2
    rw [show padPass count l (g :: gs)
        = if l.contains g then padPass count l gs
          else if count ≤ (l ++ [g]).length then l ++ [g]
          else padPass count (l ++ [g]) gs from rfl]
    by_cases hc : l.contains g
    · rw [if_pos hc]
      rw [if_pos hc] at h2
      exact ih l h1 h2
    · rw [if_neg hc]
      rw [if_neg hc] at h2
      by_cases h5 : count ≤ (l ++ [g]).length
      · rw [if_pos h5]
        rw [List.length_append, List.length_singleton] at h5 ⊢
        omega
      · rw [if_neg h5]
        refine ih (l ++ [g]) ?_ h2
        rw [List.length_append, List.length_singleton] at h5 ⊢
        omega

/-- C3: whenever the requested `count` is at most the number of
distinct hashtags reachable for the text (category matches, trending
sample, generic pool), `suggest_hashtags` terminates — two iterations
of the fallback loop suffice — and returns exactly `count` hashtags. -/
theorem suggest_hashtags_count (text : String) (count : Nat) (sample : List String)
    (h : count ≤ totalReachable text sample) :
    ∃ l, suggest_hashtags text count sample 2 = some l ∧ l.length = count := by
  unfold totalReachable at h
  unfold suggest_hashtags
  by_cases hs : count ≤ (initialHashtags text sample).length
  · refine ⟨((initialHashtags text sample).take count).take count, ?_, ?_⟩
    · show (padLoop count 2 ((initialHashtags text sample).take count)).map _ = _
      rw [show padLoop count 2 ((initialHashtags text sample).take count)
          = if ((initialHashtags text sample).take count).length < count
            then padLoop count 1
              (padPass count ((initialHashtags text sample).take count) generic_hashtags)
            else some ((initialHashtags text sample).take count) from rfl]
      rw [if_neg (by rw [List.length_take]; omega)]
      rfl
    · rw [List.length_take, List.length_take]
      omega
  · push_neg at hs
    have htake : (initialHashtags text sample).take count = initialHashtags text sample :=
      List.take_of_length_le (by omega)
    have hp : (padPass count (initialHashtags text sample) generic_hashtags).length = count :=
      padPass_reaches count generic_hashtags (initialHashtags text sample) hs h
    refine ⟨(padPass count (initialHashtags text sample) generic_hashtags).take count, ?_, ?_⟩
    · show (padLoop count 2 ((initialHashtags text sample).take count)).map _ = _
      rw [htake]
      rw [show padLoop count 2 (initialHashtags text sample)
          = if (initialHashtags text sample).length < count
            then padLoop count 1 (padPass count (initialHashtags text sample) generic_hashtags)
            else some (initialHashtags text sample) from rfl]
      rw [if_pos (by omega)]
      rw [show padLoop count 1 (padPass count (initialHashtags text sample) generic_hashtags)
          = if (padPass count (initialHashtags text sample) generic_hashtags).length < count
            then padLoop count 0
              (padPass count (padPass count (initialHashtags text sample) generic_hashtags)
                generic_hashtags)
            else some (padPass count (initialHashtags text sample) generic_hashtags) from rfl]
      rw [if_neg (by omega)]
      rfl
    · rw [List.length_take, hp]
      omega

/-- C3 witness: for `"hello"` (no category match) with the trending
sample `#trending, #viral`, 7 hashtags are reachable, and requesting 5
returns exactly 5. -/
theorem suggest_hashtags_count_witness :
    5 ≤ totalReachable "hello" ["#trending", "#viral"]
    ∧ ∃ l, suggest_hashtags "hello" 5 ["#trending", "#viral"] 2 = some l ∧ l.length = 5 := by
  have hx : 5 ≤ totalReachable "hello" ["#trending", "#viral"] := by decide
  exact ⟨hx, suggest_hashtags_count "hello" 5 ["#trending", "#viral"] hx⟩

/-- Once the two trending tags and all five generic tags are in the
list (7 items), a pass over the generic pool adds nothing, so the loop
condition `7 < 8` never changes: the loop runs out of any fuel. -/
theorem padLoop_stuck (f : Nat) :
    padLoop 8 f ["#trending", "#viral", "#content", "#social", "#post", "#share", "#engage"]
      = none := by
  induction f with
  | zero => rfl
  | succ f ih =>
    rw [show padLoop 8 (f + 1)
          ["#trending", "#viral", "#content", "#social", "#post", "#share", "#engage"]
        = if (["#trending", "#viral", "#content", "#social", "#post", "#share", "#engage"]
              : List String).length < 8
          then padLoop 8 f
            (padPass 8 ["#trending", "#viral", "#content", "#social", "#post", "#share", "#engage"]
              generic_hashtags)
          else some ["#trending", "#viral", "#content", "#social", "#post", "#share", "#engage"]
        from rfl]
    rw [if_pos (by decide)]
    rw [(by decide :
      padPass 8 ["#trending", "#viral", "#content", "#social", "#post", "#share", "#engage"]
          generic_hashtags
        = ["#trending", "#viral", "#content", "#social", "#post", "#share", "#engage"])]
    exact ih

/-- C2: the fallback loop does NOT terminate by pool exhaustion.  For
the empty text (no category matches) with trending sample
`#trending, #viral` and `count = 8 > 7` reachable hashtags, the list
stabilizes at 7 items and the `while` loop runs forever: no iteration
budget makes `suggest_hashtags` return. -/
theorem fallback_loop_diverges (fuel : Nat) :
    suggest_hashtags "" 8 ["#trending", "#viral"] fuel = none := by
  have hstart : (initialHashtags "" ["#trending", "#viral"]).take 8
      = ["#trending", "#viral"] := by decide
  show (padLoop 8 fuel ((initialHashtags "" ["#trending", "#viral"]).take 8)).map
      (fun l => l.take 8) = none
  rw [hstart]
  cases fuel with
  | zero => rfl
  | succ f =>
    rw [show padLoop 8 (f + 1) ["#trending", "#viral"]
        = if (["#trending", "#viral"] : List String).length < 8
          then padLoop 8 f (padPass 8 ["#trending", "#viral"] generic_hashtags)
          else some ["#trending", "#viral"] from rfl]
    rw [if_pos (by decide)]
    rw [(by decide : padPass 8 ["#trending", "#viral"] generic_hashtags
        = ["#trending", "#viral", "#content", "#social", "#post", "#share", "#engage"])]
    rw [padLoop_stuck f]
    rfl

/-- `Char.toLower` with its `let` unfolded. -/
theorem toLower_eq (c : Char) :
    Char.toLower c = if c.toNat ≥ 65 ∧ c.toNat ≤ 90 then Char.ofNat (c.toNat + 32) else c :=
  rfl

/-- ASCII lowercasing is idempotent. -/
theorem char_toLower_idem (c : Char) :
    Char.toLower (Char.toLower c) = Char.toLower c := by
  rw [toLower_eq c]
  by_cases h : c.toNat ≥ 65 ∧ c.toNat ≤ 90
  · rw [if_pos h]
    have hv : (c.toNat + 32).isValidChar := Or.inl (by omega)
    have ht : (Char.ofNat (c.toNat + 32)).toNat = c.toNat + 32 := by
      rw [Char.ofNat, dif_pos hv]
      rfl
    rw [toLower_eq, ht, if_neg (by omega)]
  · rw [if_neg h, toLower_eq c, if_neg h]

/-- Every character of a token produced by `wordRuns` comes from the
accumulator or from the input list. -/
theorem wordRuns_chars :
    ∀ (l acc w : List Char), w ∈ wordRuns acc l → ∀ c ∈ w, c ∈ acc ∨ c ∈ l := by
  intro l
  induction l with
  | nil =>
    intro acc w hw c hc
    unfold wordRuns at hw
    by_cases ha : acc.isEmpty
    · rw [if_pos ha] at hw
      simp at hw
    · rw [if_neg ha] at hw
      simp only [List.mem_singleton] at hw
      subst hw
      exact Or.inl (List.mem_reverse.mp hc)
  | cons x xs ih =>
    intro acc w hw c hc
    rw [show wordRuns acc (x :: xs)
        = if isWordChar x then wordRuns (x :: acc) xs
          else if acc.isEmpty then wordRuns [] xs
          else acc.reverse :: wordRuns [] xs from rfl] at hw
    by_cases hx : isWordChar x
    · rw [if_pos hx] at hw
      rcases ih (x :: acc) w hw c hc with h | h
      · rcases List.mem_cons.mp h with h | h
        · exact Or.inr (h ▸ List.mem_cons_self x xs)
        · exact Or.inl h
      · exact Or.inr (List.mem_cons_of_mem x h)
    · rw [if_neg hx] at hw
      by_cases ha : acc.isEmpty
      · rw [if_pos ha] at hw
        rcases ih [] w hw c hc with h | h
        · simp at h
        · exact Or.inr (List.mem_cons_of_mem x h)
      · rw [if_neg ha] at hw
        rcases List.mem_cons.mp hw with h | h
        · subst h
          exact Or.inl (List.mem_reverse.mp hc)
        · rcases ih [] w h c hc with h2 | h2
          · simp at h2
          · exact Or.inr (List.mem_cons_of_mem x h2)

/-- C7: every keyword returned by `_extract_keywords` is longer than 3
characters, is not a stopword, and is entirely lowercase (every
character is a fixed point of lowercasing); at most 5 keywords are
returned. -/
theorem extract_keywords_clean (text : String) :
    ((_extract_keywords text).all fun w =>
        decide (3 < w.length) && !(common_words.contains w)
          && w.data.all fun c => Char.toLower c == c) = true
    ∧ (_extract_keywords text).length ≤ 5 := by
  constructor
  · rw [List.all_eq_true]
    intro w hw
    unfold _extract_keywords at hw
    rcases List.mem_map.mp hw with ⟨w', hw', rfl⟩
    have hw2 := List.mem_of_mem_take hw'
    have hfil := List.of_mem_filter hw2
    have hmem := List.mem_of_mem_filter hw2
    rw [Bool.and_eq_true] at hfil
    rw [Bool.and_eq_true, Bool.and_eq_true]
    refine ⟨⟨hfil.1, hfil.2⟩, ?_⟩
    rw [List.all_eq_true]
    intro c hc
    rcases wordRuns_chars (text.data.map Char.toLower) [] w' hmem c hc with h | h
    · simp at h
    · rcases List.mem_map.mp h with ⟨c0, _, rfl⟩
      exact beq_iff_eq.mpr (char_toLower_idem c0)
  · unfold _extract_keywords
    rw [List.length_map, List.length_take]
    omega


theorem splitOnce_cons_eq (sep : List Char) (c : Char) (cs : List Char) :
    splitOnce sep (c :: cs)
      = if sep.isPrefixOf (c :: cs) then some ([], (c :: cs).drop sep.length)
        else match splitOnce sep cs with
          | some (pre, post) => some (c :: pre, post)
          | none => none := rfl

theorem splitOnce_none (sep : List Char) (hne : sep ≠ []) :
    ∀ l : List Char, splitOnce sep l = none → ¬ sep <:+: l := by
  intro l
  induction l with
  | nil =>
    intro _ h
    rw [List.infix_nil] at h
    exact hne h
  | cons c cs ih =>
    intro hs h
    rw [splitOnce_cons_eq] at hs
    by_cases hp : sep.isPrefixOf (c :: cs)
    · rw [if_pos hp] at hs
      exact Option.noConfusion hs
    · rw [if_neg hp] at hs
      rcases List.infix_cons_iff.mp h with h2 | h2
      · exact hp (List.isPrefixOf_iff_prefix.mpr h2)
      · cases hss : splitOnce sep cs with
        | none => exact ih hss h2
        | some pr =>
          obtain ⟨pre, post⟩ := pr
          rw [hss] at hs
          exact Option.noConfusion hs

theorem splitOnce_some (sep : List Char) (hne : sep ≠ []) :
    ∀ l pre post, splitOnce sep l = some (pre, post) →
      l = pre ++ sep ++ post ∧ ¬ sep <:+: pre := by
  intro l
  induction l with
  | nil => intro pre post h; exact Option.noConfusion h
  | cons c cs ih =>
    intro pre post h
    rw [splitOnce_cons_eq] at h
    by_cases hp : sep.isPrefixOf (c :: cs)
    · rw [if_pos hp] at h
      obtain ⟨h1, h2⟩ := Prod.mk.injEq .. ▸ Option.some.inj h
      subst h1
      subst h2
      constructor
      · rcases List.isPrefixOf_iff_prefix.mp hp with ⟨t, ht⟩
        rw [← ht, List.drop_left]
        simp
      · intro hinf
        rw [List.infix_nil] at hinf
        exact hne hinf
    · rw [if_neg hp] at h
      cases hss : splitOnce sep cs with
      | none =>
        rw [hss] at h
        exact Option.noConfusion h
      | some pr =>
        obtain ⟨pre', post'⟩ := pr
        rw [hss] at h
        obtain ⟨h1, h2⟩ := Prod.mk.injEq .. ▸ Option.some.inj h
        subst h1
        subst h2
        obtain ⟨hl, hnin⟩ := ih pre' post' hss
        constructor
        · rw [hl]
          rfl
        · intro hinf
          rcases List.infix_cons_iff.mp hinf with h3 | h3
          · apply hp
            rw [ List.isPrefixOf_iff_prefix]
            refine h3.trans ⟨sep ++ post', ?_⟩
            rw [hl]
            simp
          · exact hnin h3

theorem splitFirstSep_cons_some {line : List Char} {sep : String} {rest : List String}
    {pre post : List Char} (hss : splitOnce sep.data line = some (pre, post)) :
    splitFirstSep line (sep :: rest) = (⟨pyStrip pre⟩, some ⟨pyStrip post⟩) := by
  unfold splitFirstSep
  rw [hss]

theorem splitFirstSep_cons_none {line : List Char} {sep : String} {rest : List String}
    (hss : splitOnce sep.data line = none) :
    splitFirstSep line (sep :: rest) = splitFirstSep line rest := by
  show (match splitOnce sep.data line with
    | some (pre, post) => ((⟨pyStrip pre⟩ : String), some (⟨pyStrip post⟩ : String))
    | none => splitFirstSep line rest) = splitFirstSep line rest
  rw [hss]

theorem splitFirstSep_no_sep (line : List Char) :
    ∀ seps : List String, (∀ sep ∈ seps, ¬ (sep.data <:+: line)) →
      splitFirstSep line seps = (⟨pyStrip line⟩, none) := by
  intro seps
  induction seps with
  | nil => intro _; rfl
  | cons s0 rest ih =>
    intro h
    cases hss : splitOnce s0.data line with
    | some pr =>
      obtain ⟨pre, post⟩ := pr
      exfalso
      rcases hs0 : s0.data with _ | _
      · exact h s0 (List.mem_cons_self s0 rest) (by rw [hs0]; exact List.nil_infix)
      · have hd := (splitOnce_some s0.data (by rw [hs0]; simp) line pre post hss).1
        exact h s0 (List.mem_cons_self s0 rest) ⟨pre, post, hd.symm⟩
    | none =>
      rw [splitFirstSep_cons_none hss]
      exact ih fun s hs => h s (List.mem_cons_of_mem s0 hs)

theorem splitFirstSep_found (line : List Char) :
    ∀ seps : List String, (∀ sep ∈ seps, sep.data ≠ []) →
      ∀ sep, seps.find? (fun s => decide (s.data <:+: line)) = some sep →
      ∃ pre post, line = pre ++ sep.data ++ post ∧ ¬ (sep.data <:+: pre)
        ∧ splitFirstSep line seps = (⟨pyStrip pre⟩, some ⟨pyStrip post⟩) := by
  intro seps
  induction seps with
  | nil => intro _ sep h; exact Option.noConfusion h
  | cons s0 rest ih =>
    intro hne sep hfind
    by_cases hocc : s0.data <:+: line
    · rw [List.find?_cons_of_pos _ (by simpa using hocc)] at hfind
      obtain rfl : s0 = sep := Option.some.inj hfind
      cases hss : splitOnce s0.data line with
      | none =>
        exact absurd hocc (splitOnce_none s0.data (hne s0 (List.mem_cons_self s0 rest)) line hss)
      | some pr =>
        obtain ⟨pre, post⟩ := pr
        obtain ⟨hl, hpre⟩ :=
          splitOnce_some s0.data (hne s0 (List.mem_cons_self s0 rest)) line pre post hss
        exact ⟨pre, post, hl, hpre, splitFirstSep_cons_some hss⟩
    · rw [List.find?_cons_of_neg _ (by simpa using hocc)] at hfind
      cases hss : splitOnce s0.data line with
      | some pr =>
        obtain ⟨pre, post⟩ := pr
        have hd := (splitOnce_some s0.data (hne s0 (List.mem_cons_self s0 rest)) line pre post hss).1
        exact absurd ⟨pre, post, hd.symm⟩ hocc
      | none =>
        rw [splitFirstSep_cons_none hss]
        exact ih (fun s hs => hne s (List.mem_cons_of_mem s0 hs)) sep hfind

/-- C8 counterexample: in the line `"a ‚Äì b"` none of the separators
named by the claim (colon, hyphen, en dash, em dash, dot — the list
`spec_separators`) occurs, so the claim requires the whole trimmed line
as title and no description; but `split_title_desc` does split it,
because the source's separator list contains the mojibake sequence
U+201A U+00C4 U+00EC rather than an en dash. -/
theorem split_title_desc_counterexample :
    (spec_separators.all fun sep => !(decide (sep.data <:+: ("a ‚Äì b" : String).data))) = true
    ∧ split_title_desc "a ‚Äì b" ≠ (pyStripStr "a ‚Äì b", none) := by
  refine ⟨by decide, by decide⟩

/-- C8 (amended): with the separators exactly as they appear in the
source (`": "`, `" - "`, the two mojibake dash sequences, `". "`), a
line in which none of them occurs is returned whole (trimmed) as the
title with no description; otherwise the line is split at the first
occurrence of the first separator (in priority order) that occurs. -/
theorem split_title_desc_first (line : String) :
    ((∀ sep ∈ title_separators, ¬ (sep.data <:+: line.data)) →
        split_title_desc line = (pyStripStr line, none))
    ∧ ∀ sep : String,
        title_separators.find? (fun s => decide (s.data <:+: line.data)) = some sep →
        ∃ pre post, line.data = pre ++ sep.data ++ post
          ∧ ¬ (sep.data <:+: pre)
          ∧ split_title_desc line = (⟨pyStrip pre⟩, some ⟨pyStrip post⟩) := by
  constructor
  · intro h
    exact splitFirstSep_no_sep line.data title_separators h
  · intro sep hfind
    exact splitFirstSep_found line.data title_separators (by decide) sep hfind

/-- C8 witness: `"hello"` has no separator and comes back whole;
`"t: d"` is split at the colon separator. -/
theorem split_title_desc_first_witness :
    split_title_desc "hello" = (pyStripStr "hello", none)
    ∧ ∃ pre post, ("t: d" : String).data = pre ++ (": " : String).data ++ post
        ∧ ¬ ((": " : String).data <:+: pre)
        ∧ split_title_desc "t: d" = (⟨pyStrip pre⟩, some ⟨pyStrip post⟩) := by
  exact ⟨(split_title_desc_first "hello").1 (by decide),
    (split_title_desc_first "t: d").2 ": " (by decide)⟩


theorem markerTail_suffix (l : List Char) : markerTail l <:+ l := by
  cases l with
  | nil => exact List.suffix_refl []
  | cons c t =>
    show (if c = '\n' then t else c :: t) <:+ c :: t
    by_cases hc : c = '\n'
    · rw [if_pos hc]
      exact List.suffix_cons c t
    · rw [if_neg hc]

theorem tryMarker_suffix {l rest : List Char} (h : tryMarker l = some rest) : rest <:+ l := by
  unfold tryMarker at h
  by_cases he : ((markerTail l).takeWhile Char.isDigit).isEmpty
  · rw [if_pos he] at h
    exact Option.noConfusion h
  · rw [if_neg he] at h
    cases hd : (markerTail l).dropWhile Char.isDigit with
    | nil =>
      rw [hd] at h
      exact Option.noConfusion h
    | cons c r2 =>
      rw [hd] at h
      have h2 : (if c = '.' then some (r2.dropWhile pySpace) else none) = some rest := h
      by_cases hc : c = '.'
      · rw [if_pos hc] at h2
        obtain rfl := Option.some.inj h2
        have h1 : r2 <:+ c :: r2 := List.suffix_cons c r2
        have h2 : c :: r2 <:+ markerTail l := hd ▸ List.dropWhile_suffix Char.isDigit
        exact (List.dropWhile_suffix pySpace).trans
          (h1.trans (h2.trans (markerTail_suffix l)))
      · rw [if_neg hc] at h2
        exact Option.noConfusion h2

theorem normGo_succ_cons (fuel : Nat) (c : Char) (cs : List Char) :
    normGo (fuel + 1) (c :: cs)
      = match tryMarker (c :: cs) with
        | some rest => '\n' :: normGo fuel rest
        | none => c :: normGo fuel cs := rfl

theorem label_prefix_normGo :
    ∀ (fuel : Nat) (m lab : List Char), '\n' ∉ lab →
      lab <+: (normGo fuel m).map Char.toLower → lab <+: m.map Char.toLower := by
  intro fuel
  induction fuel with
  | zero => intro m lab _ h; exact h
  | succ fuel ih =>
    intro m lab hnl h
    cases m with
    | nil => exact h
    | cons c cs =>
      cases htm : tryMarker (c :: cs) with
      | some rest =>
        simp only [normGo_succ_cons, htm, List.map_cons] at h
        cases lab with
        | nil => exact List.nil_prefix
        | cons a lab' =>
          obtain ⟨ha, _⟩ := List.cons_prefix_cons.mp h
          exfalso
          apply hnl
          rw [ha, show Char.toLower '\n' = '\n' from rfl]
          exact List.mem_cons_self _ _
      | none =>
        simp only [normGo_succ_cons, htm, List.map_cons] at h
        cases lab with
        | nil => exact List.nil_prefix
        | cons a lab' =>
          obtain ⟨ha, htail⟩ := List.cons_prefix_cons.mp h
          have hrec := ih cs lab' (fun hm => hnl (List.mem_cons_of_mem a hm)) htail
          rw [List.map_cons]
          exact List.cons_prefix_cons.mpr ⟨ha, hrec⟩

theorem label_infix_normGo :
    ∀ (fuel : Nat) (l lab : List Char), '\n' ∉ lab →
      ¬ lab <:+: l.map Char.toLower → ¬ lab <:+: (normGo fuel l).map Char.toLower := by
  intro fuel
  induction fuel with
  | zero => intro l lab _ h; exact h
  | succ fuel ih =>
    intro l lab hnl h hinf
    cases l with
    | nil => exact h hinf
    | cons c cs =>
      cases htm : tryMarker (c :: cs) with
      | some rest =>
        simp only [normGo_succ_cons, htm, List.map_cons] at hinf
        rcases List.infix_cons_iff.mp hinf with h2 | h2
        · cases lab with
          | nil => exact h List.nil_infix
          | cons a lab' =>
            obtain ⟨ha, _⟩ := List.cons_prefix_cons.mp h2
            apply hnl
            rw [ha, show Char.toLower '\n' = '\n' from rfl]
            exact List.mem_cons_self _ _
        · have hrest : rest <:+ (c :: cs) := tryMarker_suffix htm
          have hno : ¬ lab <:+: rest.map Char.toLower := by
            intro hx
            exact h (hx.trans (hrest.map Char.toLower).isInfix)
          exact ih rest lab hnl hno h2
      | none =>
        simp only [normGo_succ_cons, htm, List.map_cons] at hinf
        rcases List.infix_cons_iff.mp hinf with h2 | h2
        · have hpre : lab <+: ((c :: cs).map Char.toLower) := by
            apply label_prefix_normGo (fuel + 1) (c :: cs) lab hnl
            simp only [normGo_succ_cons, htm, List.map_cons]
            exact h2
          exact h hpre.isInfix
        · have hno : ¬ lab <:+: cs.map Char.toLower := by
            intro hx
            apply h
            rw [List.map_cons]
            exact List.infix_cons hx
          exact ih cs lab hnl hno h2

theorem searchLabel_not_found :
    ∀ (l lab : List Char), ¬ ((lab.map Char.toLower) <:+: (l.map Char.toLower)) →
      searchLabel lab l = none := by
  intro l
  induction l with
  | nil => intro lab _; rfl
  | cons c cs ih =>
    intro lab h
    rw [show searchLabel lab (c :: cs)
        = if (lab.map Char.toLower).isPrefixOf ((c :: cs).map Char.toLower)
          then some ((((c :: cs).drop lab.length).dropWhile
              fun ch => ch = ':' || pySpace ch).takeWhile fun ch => ch != '\n')
          else searchLabel lab cs from rfl]
    have hp : ¬ (lab.map Char.toLower).isPrefixOf ((c :: cs).map Char.toLower) = true :=
      fun hpre => h (List.isPrefixOf_iff_prefix.mp hpre).isInfix
    rw [if_neg hp]
    refine ih lab fun hx => h ?_
    rw [List.map_cons]
    exact List.infix_cons hx

/-- C5: `parse_complex_result` always builds all four fields (it is
total by construction, never an exception), and any field whose label
does not occur case-insensitively in the input text is the empty
string. -/
theorem parse_missing_label (s : String) :
    (¬ (("Caption".data.map Char.toLower) <:+: (s.data.map Char.toLower)) →
        (parse_complex_result s).caption = "")
    ∧ (¬ (("Post Idea".data.map Char.toLower) <:+: (s.data.map Char.toLower)) →
        (parse_complex_result s).postIdea = "")
    ∧ (¬ (("Hashtags".data.map Char.toLower) <:+: (s.data.map Char.toLower)) →
        (parse_complex_result s).hashtags = "")
    ∧ (¬ (("Visual/Design Suggestion".data.map Char.toLower) <:+: (s.data.map Char.toLower)) →
        (parse_complex_result s).visualSuggestion = "") := by
  have key : ∀ lab : String, '\n' ∉ lab.data.map Char.toLower →
      ¬ ((lab.data.map Char.toLower) <:+: (s.data.map Char.toLower)) →
      extractField lab (normalizeMarkers s.data) = "" := by
    intro lab hnl h
    have h2 := label_infix_normGo s.data.length s.data (lab.data.map Char.toLower) hnl h
    have h3 : searchLabel lab.data (normalizeMarkers s.data) = none :=
      searchLabel_not_found (normalizeMarkers s.data) lab.data h2
    unfold extractField
    rw [h3]
  exact ⟨fun h => key "Caption" (by decide) h, fun h => key "Post Idea" (by decide) h,
    fun h => key "Hashtags" (by decide) h, fun h => key "Visual/Design Suggestion" (by decide) h⟩

/-- C5 witness: no label occurs in `"xyz"`, so all four fields are
empty. -/
theorem parse_missing_label_witness :
    (parse_complex_result "xyz").caption = ""
    ∧ (parse_complex_result "xyz").postIdea = ""
    ∧ (parse_complex_result "xyz").hashtags = ""
    ∧ (parse_complex_result "xyz").visualSuggestion = "" := by
  have h := parse_missing_label "xyz"
  exact ⟨h.1 (by decide), h.2.1 (by decide), h.2.2.1 (by decide), h.2.2.2 (by decide)⟩

end SMCG
